import Mathlib

/-!
Verification development for the go-staticfiles asset pipeline
(content-hash naming, collection, CSS reference rewriting, manifest
persistence, and the file-serving adapter), shallowly embedded in Lean.

Paths are modelled as slash-separated strings ("unix" form); the source
calls `filepath.ToSlash` on every path it manipulates, which is the
identity on such paths, so `ToSlash` is modelled as the identity.
-/

/-- Word character as in the Go regexp class backslash-w: ASCII letter,
digit or underscore. -/
def isWordChar (c : Char) : Bool :=
  c.isAlpha || c.isDigit || c = '_'

/-- Drop an exact leading run `pre` from a character list; `none` if `pre`
is not a prefix of the list. -/
def dropPreChars : List Char → List Char → Option (List Char)
  | s, [] => some s
  | [], _ :: _ => none
  | c :: s, p :: ps => if c = p then dropPreChars s ps else none

/-- Model of Go `strings.TrimPrefix(s, pre)`: remove the leading `pre`
if present, otherwise return `s` unchanged. -/
def trimPre (s pre : String) : String :=
  match dropPreChars s.data pre.data with
  | some r => ⟨r⟩
  | none => s

/-- Model of Go `strings.TrimSuffix(s, suf)`: remove the trailing `suf`
if present, otherwise return `s` unchanged. -/
def trimSuf (s suf : String) : String :=
  match dropPreChars s.data.reverse suf.data.reverse with
  | some r => ⟨r.reverse⟩
  | none => s

/-- Helper for `goExt`: scans the reversed character list of a path,
accumulating characters until the first dot (returning the extension,
dot included) or giving up at a path separator or the start of the
string. Mirrors the scan-from-the-end loop of Go `filepath.Ext`. -/
def goExtRev : List Char → List Char → List Char
  | [], _ => []
  | c :: rest, acc =>
    if c = '/' then []
    else if c = '.' then c :: acc
    else goExtRev rest (c :: acc)

/-- Model of Go `filepath.Ext(path)`: the suffix beginning at the final
dot in the final element of `path`; empty if there is no dot. -/
def goExt (s : String) : String :=
  ⟨goExtRev s.data.reverse []⟩

/-- Model of Go `filepath.Base(path)`: strip trailing slashes, then take
everything after the final slash; "." for the empty path, "/" if the
path consists entirely of separators. -/
def goBase (s : String) : String :=
  if s.data = [] then "."
  else
    let r := s.data.reverse.dropWhile (fun c => c = '/')
    let name := (r.takeWhile (fun c => c ≠ '/')).reverse
    if name = [] then "/" else ⟨name⟩

/-- Split a character list on the slash separator (separators dropped). -/
def splitSlash : List Char → List Char → List (List Char)
  | [], acc => [acc.reverse]
  | c :: rest, acc =>
    if c = '/' then acc.reverse :: splitSlash rest []
    else splitSlash rest (c :: acc)

/-- Element-stack pass of Go `path.Clean`: "" and "." elements are
dropped, ".." pops a preceding ordinary element (and is dropped at the
root of a rooted path), everything else is pushed. -/
def cleanStack (rooted : Bool) : List (List Char) → List (List Char) → List (List Char)
  | [], acc => acc.reverse
  | e :: rest, acc =>
    if e = [] ∨ e = ['.'] then cleanStack rooted rest acc
    else if e = ['.', '.'] then
      match acc with
      | [] => if rooted then cleanStack rooted rest [] else cleanStack rooted rest [e]
      | top :: acc2 =>
        if top = ['.', '.'] then cleanStack rooted rest (e :: acc)
        else cleanStack rooted rest acc2
    else cleanStack rooted rest (e :: acc)

/-- Join path elements with single slashes. -/
def joinSlash : List (List Char) → List Char
  | [] => []
  | [e] => e
  | e :: rest => e ++ '/' :: joinSlash rest

/-- Model of Go `filepath.Clean(path)` for slash-separated paths:
removes empty and "." elements, resolves ".." against preceding
elements, keeps the rooted/relative distinction, returns "." for an
empty result. -/
def goClean (s : String) : String :=
  if s.data = [] then "."
  else
    let rooted := s.data.head? = some '/'
    let body := joinSlash (cleanStack rooted (splitSlash s.data []) [])
    if rooted then (if body = [] then "/" else ⟨'/' :: body⟩)
    else (if body = [] then "." else ⟨body⟩)

/-- Model of Go `filepath.Dir(path)`: everything up to and including the
final slash, then `Clean`; "." when the path has no slash. -/
def goDir (s : String) : String :=
  goClean ⟨(s.data.reverse.dropWhile (fun c => c ≠ '/')).reverse⟩

/-- Model of Go `filepath.Join(a, b)` for two elements: empty elements
are skipped, the remainder is joined with a slash and `Clean`ed; the
empty string when both are empty. -/
def goJoin2 (a b : String) : String :=
  if a.data = [] then (if b.data = [] then "" else goClean b)
  else goClean ⟨a.data ++ '/' :: b.data⟩

/-- Model of Go `strings.Replace(s, old, new, 1)` on character lists:
replace the first occurrence of `old` (assumed non-empty here). -/
def replFirstChars (old new : List Char) : List Char → List Char
  | [] => []
  | c :: rest =>
    match dropPreChars (c :: rest) old with
    | some tail => new ++ tail
    | none => c :: replFirstChars old new rest

/-- Model of Go `strings.Replace(s, old, new, 1)`: replace the first
occurrence of `old` in `s` by `new`; with an empty `old`, `new` is
inserted at the start. -/
def replaceFirst (s old new : String) : String :=
  if old.data = [] then ⟨new.data ++ s.data⟩
  else ⟨replFirstChars old.data new.data s.data⟩

example : goExt "/in/style.css" = ".css" := by decide
example : goExt "/in/README" = "" := by decide
example : goExt ".bashrc" = ".bashrc" := by decide
example : goBase "a/a" = "a" := by decide
example : goBase "/a/b.png" = "b.png" := by decide
example : goClean "/in/css//a/b.png" = "/in/css/a/b.png" := by decide
example : goClean "/in/css/../img/a.png" = "/in/img/a.png" := by decide
example : goDir "/in/s.css" = "/in" := by decide
example : goDir "s.css" = "." := by decide
example : goJoin2 "/out/" "a/a.X" = "/out/a/a.X" := by decide
example : trimPre "/out/a/a.X" "/out/" = "a/a.X" := by decide
example : trimSuf "/in/style.css" ".css" = "/in/style" := by decide
example : replaceFirst "url(a/a)" "a" "a.beef" = "url(a.beef/a)" := by decide

/-- I/O error value, identified by a numeric code; errors are surfaced
unmodified, so only identity matters. -/
structure IoErr where
  code : Nat
deriving DecidableEq

/-- Model of the `StaticFile` record (staticfiles.go): original path,
original path relative to its input dir, storage path, and storage path
relative to the storage root. -/
structure StaticFile where
  Path : String
  RelPath : String
  StoragePath : String
  StorageRelPath : String
deriving DecidableEq

/-- Hex digit character (lower case), as produced by Go
`hex.EncodeToString`. -/
def hexChar (n : Nat) : Char :=
  if n < 10 then Char.ofNat (48 + n) else Char.ofNat (87 + n)

/-- Deterministic stand-in for the MD5 digest of a byte sequence,
rendered in hex. The spec treats the hash as an opaque deterministic
digest function of the file content (not a security boundary), so only
the facts that it is a function of the content bytes alone and is
rendered as a fixed hex segment are modelled. -/
def digestHex (content : List Nat) : String :=
  let h := content.foldl (fun h b => (h * 131 + b + 17) % 4294967296) 2166136261
  ⟨(List.range 8).map (fun i => hexChar (h / 16 ^ (7 - i) % 16))⟩

/-- Model of `Storage.hashFilename` (staticfiles.go): open and read the
file at `path` (any read error is returned), digest its content, and
return `<path-without-ext>.<hex-digest><ext>` where `<ext>` is Go
`filepath.Ext(path)` (leading dot included, possibly empty). The file
system is the `read` oracle mapping a path to its byte content or an
error. -/
def hashFilename (read : String → Except IoErr (List Nat)) (path : String) :
    Except IoErr String :=
  match read path with
  | .error e => .error e
  | .ok c => .ok (trimSuf path (goExt path) ++ "." ++ digestHex c ++ goExt path)

/-- Model of `ignoreRegex = regexp.MustCompile` of the pattern
word-chars-then-colon anchored at the start (postprocess.go): the
reference matches iff it starts with one or more word characters
immediately followed by a colon. Since colon is not a word character,
matching the anchored pattern is equivalent to: the maximal leading run
of word characters is non-empty and is followed by a colon. -/
def ignoreMatches (url : String) : Bool :=
  let w := url.data.takeWhile isWordChar
  !w.isEmpty && ((url.data.drop w.length).head? == some ':')

example : ignoreMatches "data:image/png;base64,AAA" = true := by decide
example : ignoreMatches "http://x/y.png" = true := by decide
example : ignoreMatches "/a/b.png" = false := by decide
example : ignoreMatches "../img/a.png" = false := by decide

/-- The body of the `ReplaceAllStringFunc` closure in `PostProcessCSS`
(postprocess.go), for one matched reference: `s` is the full matched
text, `url` the captured `url` group. References matching `ignoreRegex`
are returned unchanged; otherwise the reference is resolved against the
directory of the CSS file's original path and the file map is scanned
linearly for a tracked file whose original `Path` equals the candidate;
on a hit, the first occurrence of the reference's base filename inside
the matched text is replaced by the base filename of that tracked
file's `StoragePath` and the `changed` flag is set; on a miss the text
is returned unchanged. Returns the new text and the `changed`
contribution of this match. -/
def rewriteMatch (fm : List StaticFile) (cssPath s url : String) : String × Bool :=
  if ignoreMatches url then (s, false)
  else
    let urlFileName := goBase url
    let urlFilePath := goJoin2 (goDir cssPath) url
    match fm.find? (fun tf => tf.Path = urlFilePath) with
    | some tf => (replaceFirst s urlFileName (goBase tf.StoragePath), true)
    | none => (s, false)

/-- One segment of a CSS file's text, as decomposed by the three
reference regexes of postprocess.go: either literal text containing no
reference match, or one matched reference (the full matched text
together with its captured `url` group). This decomposition represents
the scanning done by `ReplaceAllStringFunc` over the `urlPatterns`;
the per-match transformation itself is `rewriteMatch`. -/
inductive Seg
  | lit (t : String)
  | ref (s url : String)
deriving DecidableEq

/-- The unmodified text of a segment list. -/
def renderSegs : List Seg → String
  | [] => ""
  | .lit t :: r => t ++ renderSegs r
  | .ref s _ :: r => s ++ renderSegs r

/-- The rewrite pass of `PostProcessCSS` over the decomposed content:
literal text is kept, each matched reference goes through
`rewriteMatch`, and the `changed` flag is the disjunction over all
matches (as accumulated by the closure in postprocess.go). -/
def processSegs (fm : List StaticFile) (cssPath : String) : List Seg → String × Bool
  | [] => ("", false)
  | .lit t :: r =>
    let p := processSegs fm cssPath r
    (t ++ p.1, p.2)
  | .ref s url :: r =>
    let m := rewriteMatch fm cssPath s url
    let p := processSegs fm cssPath r
    (m.1 ++ p.1, m.2 || p.2)

/-- I/O oracle for one `PostProcessCSS` run: the error (if any) returned
by reading the original file, and the error (if any) returned by
writing the rewritten content to the storage copy. -/
structure CssEnv where
  readErr : Option IoErr
  writeErr : Option IoErr
deriving DecidableEq

/-- Model of `PostProcessCSS` (postprocess.go). Files whose original
path does not have extension ".css" are skipped. Otherwise the original
file is read (read errors are returned), the content is rewritten
match by match, and — only when some match changed — the result is
written to the file's `StoragePath` (write errors are returned).
The observable outcome is modelled as the content written to the
storage copy (`some` content on a write, `none` when nothing was
written) or the error returned. -/
def PostProcessCSS (env : CssEnv) (fm : List StaticFile) (file : StaticFile)
    (segs : List Seg) : Except IoErr (Option String) :=
  if goExt file.Path = ".css" then
    match env.readErr with
    | some e => .error e
    | none =>
      let p := processSegs fm file.Path segs
      if p.2 then
        match env.writeErr with
        | some e => .error e
        | none => .ok (some p.1)
      else .ok none
  else .ok none


/-- Result of `os.Stat` on a destination path, as discriminated by the
source: success (`found`), an error for which `os.IsNotExist` holds
(`notFound`), or any other stat error (`statErr`). -/
inductive StatRes
  | found
  | notFound
  | statErr (e : IoErr)
deriving DecidableEq

/-- File-system oracle for one collection run: file contents for
reading/hashing, `os.Stat` outcomes on destination paths, and the
errors (if any) returned by `os.MkdirAll` and by `Storage.copyFile`
for given arguments. -/
structure FsEnv where
  read : String → Except IoErr (List Nat)
  stat : String → StatRes
  mkdirAll : String → Option IoErr
  copyErr : String → String → Option IoErr

/-- One visit delivered by `filepath.Walk`: the visited path, whether
it is a directory, and the walk error passed into the callback for
this visit (if any). -/
structure WalkEntry where
  path : String
  isDir : Bool
  walkErr : Option IoErr
deriving DecidableEq

/-- Go map assignment `m[k] = v` on an association list: replace the
binding of `k` if present, otherwise append it. -/
def mapInsert (m : List (String × StaticFile)) (k : String) (v : StaticFile) :
    List (String × StaticFile) :=
  if m.any (fun p => p.1 = k) then
    m.map (fun p => if p.1 = k then (k, v) else p)
  else m ++ [(k, v)]

/-- Go map lookup `m[k]` on an association list. -/
def mapLookup (m : List (String × StaticFile)) (k : String) : Option StaticFile :=
  (m.find? (fun p => p.1 = k)).map Prod.snd

/-- State threaded through a collection run: the `Storage.FilesMap`
together with a record of the effects performed (directories created by
`os.MkdirAll`, byte copies performed by `Storage.copyFile`). -/
structure CollectState where
  filesMap : List (String × StaticFile)
  mkdirs : List String
  copies : List (String × String)
deriving DecidableEq

/-- Model of the `filepath.Walk` callback body in `Storage.collectFiles`
(staticfiles.go) for one visited entry: a walk error is returned as is;
directories are skipped; the file is hashed via `hashFilename` (read
errors returned); the relative path is the visited path minus the input
dir prefix; the destination is the storage root joined with the
directory of the relative path and the base of the hashed name; if
`os.Stat` on the destination reports not-exist, directories are created
(`os.MkdirAll`, errors returned) and the bytes are copied
(`Storage.copyFile`, errors returned); any other stat outcome skips the
copy; in every non-error case the `StaticFile` entry is inserted or
replaced under the relative path. `root` is `Storage.Root` and `dir`
the current input dir, both already slash-normalized with a trailing
slash by `normalizeDirPath`. -/
def collectOne (env : FsEnv) (root dir : String) (st : CollectState)
    (e : WalkEntry) : Except IoErr CollectState :=
  match e.walkErr with
  | some er => .error er
  | none =>
    if e.isDir then .ok st
    else
      match hashFilename env.read e.path with
      | .error er => .error er
      | .ok hashedPath =>
        let relPath := trimPre e.path dir
        let storageDir := goJoin2 root (goDir relPath)
        let storagePath := goJoin2 storageDir (goBase hashedPath)
        let entry : StaticFile :=
          ⟨e.path, relPath, storagePath, trimPre storagePath root⟩
        match env.stat storagePath with
        | .notFound =>
          match env.mkdirAll storageDir with
          | some er => .error er
          | none =>
            match env.copyErr e.path storagePath with
            | some er => .error er
            | none =>
              .ok ⟨mapInsert st.filesMap relPath entry,
                   st.mkdirs ++ [storageDir],
                   st.copies ++ [(e.path, storagePath)]⟩
        | _ => .ok ⟨mapInsert st.filesMap relPath entry, st.mkdirs, st.copies⟩

/-- The `filepath.Walk` loop of `Storage.collectFiles` over one input
dir: entries are visited in order and the first error aborts the walk
and is returned unmodified. -/
def collectWalk (env : FsEnv) (root dir : String) (st : CollectState) :
    List WalkEntry → Except IoErr CollectState
  | [] => .ok st
  | e :: rest =>
    match collectOne env root dir st e with
    | .error er => .error er
    | .ok st2 => collectWalk env root dir st2 rest

/-- Model of `Storage.collectFiles` (staticfiles.go): walk each input
dir in order (each paired with the visit sequence its walk produces);
the first error aborts the whole run and is returned unmodified. -/
def collectFiles (env : FsEnv) (root : String) (st : CollectState) :
    List (String × List WalkEntry) → Except IoErr CollectState
  | [] => .ok st
  | (dir, entries) :: rest =>
    match collectWalk env root dir st entries with
    | .error er => .error er
    | .ok st2 => collectFiles env root st2 rest

/-- Manifest file name constant (manifest.go). -/
def ManifestFilename : String := "staticfiles.json"

/-- Manifest schema version constant (manifest.go). -/
def ManifestVersion : Int := 1

/-- Model of the `ManifestScheme` record (manifest.go): the persisted
paths mapping and the schema version. The JSON encoding is serialization
plumbing and is abstracted: the store below holds decoded documents. -/
structure ManifestScheme where
  Paths : List (String × String)
  Version : Int
deriving DecidableEq

/-- Store of decoded manifest documents by path; `none` models the
absence of a document at that path (a read failing with a not-exist
error). -/
def MStore := String → Option ManifestScheme

/-- Model of `saveManifest(dir, filesMap)` (manifest.go): build the
projection of the file map onto (RelPath, StorageRelPath) pairs, tag it
with `ManifestVersion`, and overwrite the document at
`filepath.Join(dir, ManifestFilename)`. -/
def saveManifest (dir : String) (filesMap : List StaticFile) (st : MStore) : MStore :=
  fun p =>
    if p = goJoin2 dir ManifestFilename then
      some ⟨filesMap.map (fun sf => (sf.RelPath, sf.StorageRelPath)), ManifestVersion⟩
    else st p

/-- Errors of `loadManifest` (manifest.go): the read failing because no
document exists, or `ErrManifestVersionMismatch`. -/
inductive LoadErr
  | notFound
  | versionMismatch
deriving DecidableEq

/-- Model of `loadManifest(dir)` (manifest.go): read the document at
`filepath.Join(dir, ManifestFilename)` (absence is the not-found
error), fail with the version-mismatch error unless the document's
version equals `ManifestVersion`, and otherwise rebuild a file map
whose entries carry only `RelPath` and `StorageRelPath` (the absolute
paths are left empty). -/
def loadManifest (dir : String) (st : MStore) : Except LoadErr (List StaticFile) :=
  match st (goJoin2 dir ManifestFilename) with
  | none => .error .notFound
  | some m =>
    if m.Version = ManifestVersion then
      .ok (m.Paths.map (fun pr => ⟨"", pr.1, "", pr.2⟩))
    else .error .versionMismatch

/-- Error returned by an `http.File` open or stat, as discriminated by
`os.IsNotExist`: a not-exist error or any other error (identified by a
code). -/
inductive OpenErr
  | notExist
  | other (code : Nat)
deriving DecidableEq

/-- Model of an opened `http.File` handle: whether its stat reports a
directory, the error of the `Stat` call itself (if any), and an
identity. -/
structure GoFile where
  isDir : Bool
  statErr : Option OpenErr
  fid : Nat
deriving DecidableEq

/-- Oracle for `http.Dir(dir).Open(path)`: the outcome of opening
`path` relative to `dir`. -/
structure OpenEnv where
  openAt : String → String → Except OpenErr GoFile

/-- Model of the `Storage` fields consulted by `Storage.Open` and
`Storage.Resolve` (src/unnamed/part_001). -/
structure Storage where
  OutputDir : String
  inputDirs : List String
  OutputDirList : Bool
  Enabled : Bool

/-- The input-dir loop of `Storage.Open` with Go's loop state made
explicit: each iteration assigns the pair (file, error) from opening
`path` under the next dir and breaks when the error is nil or is not a
not-exist error; when the list is exhausted the last assignment (or the
initial nil pair) stands. -/
def openLoopAux (env : OpenEnv) (path : String)
    (acc : Option GoFile × Option OpenErr) :
    List String → Option GoFile × Option OpenErr
  | [] => acc
  | d :: ds =>
    match env.openAt d path with
    | .ok f => (some f, none)
    | .error e =>
      if e = OpenErr.notExist then openLoopAux env path (none, some e) ds
      else (none, some e)

/-- The input-dir loop of `Storage.Open`, started from the nil pair. -/
def openLoop (env : OpenEnv) (path : String) (dirs : List String) :
    Option GoFile × Option OpenErr :=
  openLoopAux env path (none, none) dirs

/-- Outcome of `Storage.Open`: a file with a nil error, a nil file with
a nil error (Go `return f, nil` with `f` still nil), an error, or a
nil-pointer dereference (Go calling `Stat` on a nil `http.File`). -/
inductive OpenResult
  | ok (f : GoFile)
  | okNil
  | fail (e : OpenErr)
  | crash
deriving DecidableEq

/-- Model of `Storage.Open` (src/unnamed/part_001): when `Enabled` is
false, run the input-dir loop; when true, open under `OutputDir` only.
A non-nil error is returned. Otherwise, when `OutputDirList` is false
the handle is stat'ed (a nil handle dereferences nil; a stat error is
returned; a directory is turned into the not-exist error), and the
handle (possibly nil) is returned with a nil error. -/
def Storage.Open (env : OpenEnv) (s : Storage) (path : String) : OpenResult :=
  let fe : Option GoFile × Option OpenErr :=
    if s.Enabled = false then openLoop env path s.inputDirs
    else
      match env.openAt s.OutputDir path with
      | .ok f => (some f, none)
      | .error e => (none, some e)
  match fe.2 with
  | some e => .fail e
  | none =>
    if s.OutputDirList = false then
      match fe.1 with
      | none => .crash
      | some f =>
        match f.statErr with
        | some e => .fail e
        | none => if f.isDir then .fail OpenErr.notExist else .ok f
    else
      match fe.1 with
      | none => .okNil
      | some f => .ok f

/-! ### Helper lemmas -/

theorem strMk_append (a b : List Char) : (⟨a⟩ : String) ++ ⟨b⟩ = ⟨a ++ b⟩ := rfl

theorem str_append_empty (s : String) : s ++ "" = s := by
  cases s with
  | mk d => show (⟨d ++ []⟩ : String) = ⟨d⟩; rw [List.append_nil]

theorem dropPreChars_append (x y : List Char) : dropPreChars (x ++ y) x = some y := by
  induction x with
  | nil => simp [dropPreChars]
  | cons c cs ih => simp [dropPreChars, ih]

theorem trimSuf_empty (s : String) : trimSuf s "" = s := by
  unfold trimSuf
  simp [dropPreChars]

theorem trimSuf_strip (s e : String) (u : List Char) (h : s.data = u ++ e.data) :
    trimSuf s e = ⟨u⟩ := by
  unfold trimSuf
  rw [h, List.reverse_append, dropPreChars_append]
  simp

/-- The scan of `goExtRev` returns either nothing or a dotted suffix of
the scanned (reversed) input extended by the accumulator. -/
theorem goExtRev_suffix (r : List Char) : ∀ acc : List Char,
    goExtRev r acc = [] ∨ ∃ u, u ++ goExtRev r acc = r.reverse ++ acc := by
  induction r with
  | nil => intro acc; exact Or.inl rfl
  | cons c rest ih =>
    intro acc
    by_cases h1 : c = '/'
    · left; simp [goExtRev, h1]
    · by_cases h2 : c = '.'
      · right
        refine ⟨rest.reverse, ?_⟩
        simp [goExtRev, h1, h2]
      · rcases ih (c :: acc) with h | ⟨u, hu⟩
        · left; simpa [goExtRev, h1, h2] using h
        · right
          refine ⟨u, ?_⟩
          simp only [goExtRev, if_neg h1, if_neg h2]
          rw [hu]
          simp

/-- `filepath.Ext` returns a suffix of its argument: the path equals
its extension-stripped prefix followed by its extension. -/
theorem trimSuf_goExt_append (s : String) : trimSuf s (goExt s) ++ goExt s = s := by
  rcases goExtRev_suffix s.data.reverse [] with h | ⟨u, hu⟩
  · have he : goExt s = "" := by
      unfold goExt
      rw [h]
    rw [he, trimSuf_empty, str_append_empty]
  · have hd : s.data = u ++ (goExt s).data := by
      have : u ++ goExtRev s.data.reverse [] = s.data := by
        simpa using hu
      simpa [goExt] using this.symm
    rw [trimSuf_strip s (goExt s) u hd]
    cases hge : goExt s with
    | mk ge =>
      rw [strMk_append]
      rw [hge] at hd
      exact congrArg String.mk hd.symm

/-! ### C7: digest determinism -/

/-- C7: for any two reads (possibly through different file-system
oracles, at different paths or names) that yield identical byte
content, `hashFilename` produces renamed paths carrying an identical
digest segment. -/
theorem hashFilename_digest_deterministic
    (read1 read2 : String → Except IoErr (List Nat)) (p1 p2 : String)
    (c : List Nat) (h1 : read1 p1 = .ok c) (h2 : read2 p2 = .ok c) :
    ∃ seg,
      hashFilename read1 p1 = .ok (trimSuf p1 (goExt p1) ++ "." ++ seg ++ goExt p1)
      ∧ hashFilename read2 p2 = .ok (trimSuf p2 (goExt p2) ++ "." ++ seg ++ goExt p2) :=
  ⟨digestHex c, by simp [hashFilename, h1], by simp [hashFilename, h2]⟩

/-- Read oracle used by concrete witnesses: two files with identical
content at unrelated paths, everything else failing. -/
def readW : String → Except IoErr (List Nat) := fun p =>
  if p = "/a/x.css" then .ok [7, 7]
  else if p = "/b/y" then .ok [7, 7]
  else .error ⟨1⟩

theorem hashFilename_digest_deterministic_witness :
    ∃ seg,
      hashFilename readW "/a/x.css"
        = .ok (trimSuf "/a/x.css" (goExt "/a/x.css") ++ "." ++ seg ++ goExt "/a/x.css")
      ∧ hashFilename readW "/b/y"
        = .ok (trimSuf "/b/y" (goExt "/b/y") ++ "." ++ seg ++ goExt "/b/y") :=
  hashFilename_digest_deterministic readW readW "/a/x.css" "/b/y" [7, 7] rfl rfl

/-! ### C9: shape of the renamed path -/

/-- C9: on a successful read, the renamed path is the original path
without its extension, a dot, the hex digest, then the original
extension (which carries its leading dot); stripping the extension and
appending it back reproduces the original path, so for an extensionless
path the digest is appended as a final dotted segment. -/
theorem hashFilename_shape (read : String → Except IoErr (List Nat))
    (p : String) (c : List Nat) (h : read p = .ok c) :
    (trimSuf p (goExt p) ++ goExt p = p
      ∧ hashFilename read p = .ok (trimSuf p (goExt p) ++ "." ++ digestHex c ++ goExt p))
    ∧ (goExt p = "" → hashFilename read p = .ok (p ++ "." ++ digestHex c)) := by
  refine ⟨⟨trimSuf_goExt_append p, by simp [hashFilename, h]⟩, ?_⟩
  intro hext
  simp [hashFilename, h, hext, trimSuf_empty, str_append_empty]

theorem hashFilename_shape_witness :
    (trimSuf "/a/x.css" (goExt "/a/x.css") ++ goExt "/a/x.css" = "/a/x.css"
      ∧ hashFilename readW "/a/x.css"
        = .ok (trimSuf "/a/x.css" (goExt "/a/x.css") ++ "." ++ digestHex [7, 7]
            ++ goExt "/a/x.css"))
    ∧ (goExt "/a/x.css" = "" →
        hashFilename readW "/a/x.css" = .ok ("/a/x.css" ++ "." ++ digestHex [7, 7])) :=
  hashFilename_shape readW "/a/x.css" [7, 7] rfl

/-! ### C3: manifest round-trip, version mismatch, not found -/

/-- C3: loading the manifest saved for a file map `M` succeeds and
reproduces exactly `M`'s projection from original relative path to
output relative path; loading a document whose version differs from
`ManifestVersion` fails with the version-mismatch error; loading from a
store holding no document at the manifest path fails with the
not-found error. -/
theorem manifest_round_trip (dir : String) (M : List StaticFile)
    (st st2 : MStore) (m : ManifestScheme) :
    (loadManifest dir (saveManifest dir M st)
        = .ok (M.map (fun sf => ⟨"", sf.RelPath, "", sf.StorageRelPath⟩))
      ∧ (M.map (fun sf => (⟨"", sf.RelPath, "", sf.StorageRelPath⟩ : StaticFile))).map
          (fun sf => (sf.RelPath, sf.StorageRelPath))
        = M.map (fun sf => (sf.RelPath, sf.StorageRelPath)))
    ∧ (st2 (goJoin2 dir ManifestFilename) = some m → m.Version ≠ ManifestVersion →
        loadManifest dir st2 = .error .versionMismatch)
    ∧ (st2 (goJoin2 dir ManifestFilename) = none →
        loadManifest dir st2 = .error .notFound) := by
  refine ⟨⟨?_, ?_⟩, ?_, ?_⟩
  · simp [loadManifest, saveManifest, List.map_map]
  · simp [List.map_map]
  · intro h hv
    simp [loadManifest, h, hv]
  · intro h
    simp [loadManifest, h]

/-- Manifest store used by concrete witnesses: a lone document with a
wrong version at the manifest path. -/
def stBadW : MStore := fun p =>
  if p = goJoin2 "/out" ManifestFilename then some ⟨[], 2⟩ else none

theorem manifest_round_trip_witness :
    loadManifest "/out"
        (saveManifest "/out" [⟨"/i/a.css", "a.css", "/o/a.h.css", "a.h.css"⟩]
          (fun _ => none))
      = .ok [⟨"", "a.css", "", "a.h.css"⟩]
    ∧ loadManifest "/out" stBadW = .error .versionMismatch
    ∧ loadManifest "/out" (fun _ => none) = .error .notFound :=
  ⟨(manifest_round_trip "/out" [⟨"/i/a.css", "a.css", "/o/a.h.css", "a.h.css"⟩]
      (fun _ => none) stBadW ⟨[], 2⟩).1.1,
   (manifest_round_trip "/out" [] (fun _ => none) stBadW ⟨[], 2⟩).2.1 rfl (by decide),
   (manifest_round_trip "/out" [] (fun _ => none) (fun _ => none) ⟨[], 2⟩).2.2 rfl⟩

/-! ### C4: incremental-copy policy -/

/-- C4: for a file visit with no walk error and a successful content
read, if a file already exists at the computed destination path
(`os.Stat` succeeds) the byte copy is skipped, and if the destination
does not exist (`os.Stat` reports not-exist) the intervening
directories are created and the content is copied; in both cases the
`StaticFile` entry is inserted or replaced under the original relative
path, regardless of whether a fresh copy happened. -/
theorem collect_incremental_copy_policy (env : FsEnv) (root dir : String)
    (st : CollectState) (e : WalkEntry) (c : List Nat)
    (hw : e.walkErr = none) (hd : e.isDir = false)
    (hr : env.read e.path = .ok c) :
    let hashedPath := trimSuf e.path (goExt e.path) ++ "." ++ digestHex c ++ goExt e.path
    let relPath := trimPre e.path dir
    let storageDir := goJoin2 root (goDir relPath)
    let storagePath := goJoin2 storageDir (goBase hashedPath)
    let entry : StaticFile := ⟨e.path, relPath, storagePath, trimPre storagePath root⟩
    (env.stat storagePath = .found →
        collectOne env root dir st e
          = .ok ⟨mapInsert st.filesMap relPath entry, st.mkdirs, st.copies⟩)
    ∧ (env.stat storagePath = .notFound →
        env.mkdirAll storageDir = none →
        env.copyErr e.path storagePath = none →
        collectOne env root dir st e
          = .ok ⟨mapInsert st.filesMap relPath entry,
                 st.mkdirs ++ [storageDir], st.copies ++ [(e.path, storagePath)]⟩) := by
  intro hashedPath relPath storageDir storagePath entry
  constructor
  · intro hs
    simp [collectOne, hashFilename, hw, hd, hr, hs]
  · intro hs hm hc
    simp [collectOne, hashFilename, hw, hd, hr, hs, hm, hc]

/-- File-system oracle for witnesses: one readable source file, every
destination stat reporting an existing file, directory creation and
copying succeeding. -/
def envFoundW : FsEnv :=
  ⟨fun p => if p = "/in/css/style.css" then .ok [3, 4] else .error ⟨9⟩,
   fun _ => .found, fun _ => none, fun _ _ => none⟩

/-- Like `envFoundW` but every destination stat reports not-exist. -/
def envNotFoundW : FsEnv :=
  ⟨fun p => if p = "/in/css/style.css" then .ok [3, 4] else .error ⟨9⟩,
   fun _ => .notFound, fun _ => none, fun _ _ => none⟩

theorem collect_incremental_copy_policy_witness :
    let e : WalkEntry := ⟨"/in/css/style.css", false, none⟩
    let hashedPath := trimSuf e.path (goExt e.path) ++ "." ++ digestHex [3, 4] ++ goExt e.path
    let relPath := trimPre e.path "/in/"
    let storageDir := goJoin2 "/out/" (goDir relPath)
    let storagePath := goJoin2 storageDir (goBase hashedPath)
    let entry : StaticFile := ⟨e.path, relPath, storagePath, trimPre storagePath "/out/"⟩
    collectOne envFoundW "/out/" "/in/" ⟨[], [], []⟩ e
      = .ok ⟨mapInsert [] relPath entry, [], []⟩
    ∧ collectOne envNotFoundW "/out/" "/in/" ⟨[], [], []⟩ e
      = .ok ⟨mapInsert [] relPath entry, [storageDir], [(e.path, storagePath)]⟩ :=
  ⟨(collect_incremental_copy_policy envFoundW "/out/" "/in/" ⟨[], [], []⟩
      ⟨"/in/css/style.css", false, none⟩ [3, 4] rfl rfl rfl).1 rfl,
   (collect_incremental_copy_policy envNotFoundW "/out/" "/in/" ⟨[], [], []⟩
      ⟨"/in/css/style.css", false, none⟩ [3, 4] rfl rfl rfl).2 rfl rfl rfl⟩

/-! ### C2: error propagation during collection -/

/-- Whether a collection run ended without an error. -/
def isOkE : Except IoErr CollectState → Bool
  | .ok _ => true
  | .error _ => false

/-- File-system oracle whose destination stats fail with a
non-not-exist error (for example a permission failure), while the
source file itself reads fine. -/
def envStatErrW : FsEnv :=
  ⟨fun p => if p = "/in/a.txt" then .ok [1] else .error ⟨9⟩,
   fun _ => .statErr ⟨13⟩, fun _ => none, fun _ _ => none⟩

/-- C2 fails on the code: a stat failure on the destination path that
is not a not-exist error does NOT cause `collectFiles` to return an
error — the run completes successfully (the copy is silently skipped
and the entry recorded), because the source only tests
`os.IsNotExist(err)` and discards any other stat error. -/
theorem collect_stat_error_not_surfaced :
    isOkE (collectFiles envStatErrW "/out/" ⟨[], [], []⟩
      [("/in/", [⟨"/in/a.txt", false, none⟩])]) = true := rfl

/-- C2 as amended: an error handed to the walk callback, an error
reading a source file for hashing, a directory-creation error, and a
copy error each abort the walk and the whole multi-root run, surfaced
unmodified; a destination stat failure other than not-exist never
aborts — the copy is skipped and the entry is still recorded. -/
theorem collect_error_propagation :
    (∀ (env : FsEnv) (root dir : String) (st : CollectState) (e : WalkEntry)
        (er : IoErr), e.walkErr = some er →
        collectOne env root dir st e = .error er)
    ∧ (∀ (env : FsEnv) (root dir : String) (st : CollectState) (e : WalkEntry)
        (er : IoErr), e.walkErr = none → e.isDir = false →
        env.read e.path = .error er →
        collectOne env root dir st e = .error er)
    ∧ (∀ (env : FsEnv) (root dir : String) (st : CollectState) (e : WalkEntry)
        (c : List Nat) (er : IoErr), e.walkErr = none → e.isDir = false →
        env.read e.path = .ok c →
        env.stat (goJoin2 (goJoin2 root (goDir (trimPre e.path dir)))
            (goBase (trimSuf e.path (goExt e.path) ++ "." ++ digestHex c
              ++ goExt e.path))) = .notFound →
        env.mkdirAll (goJoin2 root (goDir (trimPre e.path dir))) = some er →
        collectOne env root dir st e = .error er)
    ∧ (∀ (env : FsEnv) (root dir : String) (st : CollectState) (e : WalkEntry)
        (c : List Nat) (er : IoErr), e.walkErr = none → e.isDir = false →
        env.read e.path = .ok c →
        env.stat (goJoin2 (goJoin2 root (goDir (trimPre e.path dir)))
            (goBase (trimSuf e.path (goExt e.path) ++ "." ++ digestHex c
              ++ goExt e.path))) = .notFound →
        env.mkdirAll (goJoin2 root (goDir (trimPre e.path dir))) = none →
        env.copyErr e.path (goJoin2 (goJoin2 root (goDir (trimPre e.path dir)))
            (goBase (trimSuf e.path (goExt e.path) ++ "." ++ digestHex c
              ++ goExt e.path))) = some er →
        collectOne env root dir st e = .error er)
    ∧ (∀ (env : FsEnv) (root dir : String) (st st2 : CollectState)
        (pre post : List WalkEntry) (e : WalkEntry) (er : IoErr),
        collectWalk env root dir st pre = .ok st2 →
        collectOne env root dir st2 e = .error er →
        collectWalk env root dir st (pre ++ e :: post) = .error er)
    ∧ (∀ (env : FsEnv) (root : String) (st st2 : CollectState)
        (pre post : List (String × List WalkEntry)) (d : String)
        (entries : List WalkEntry) (er : IoErr),
        collectFiles env root st pre = .ok st2 →
        collectWalk env root d st2 entries = .error er →
        collectFiles env root st (pre ++ (d, entries) :: post) = .error er)
    ∧ (∀ (env : FsEnv) (root dir : String) (st : CollectState) (e : WalkEntry)
        (c : List Nat) (e2 : IoErr), e.walkErr = none → e.isDir = false →
        env.read e.path = .ok c →
        env.stat (goJoin2 (goJoin2 root (goDir (trimPre e.path dir)))
            (goBase (trimSuf e.path (goExt e.path) ++ "." ++ digestHex c
              ++ goExt e.path))) = .statErr e2 →
        collectOne env root dir st e
          = .ok ⟨mapInsert st.filesMap (trimPre e.path dir)
                 ⟨e.path, trimPre e.path dir,
                  goJoin2 (goJoin2 root (goDir (trimPre e.path dir)))
                    (goBase (trimSuf e.path (goExt e.path) ++ "." ++ digestHex c
                      ++ goExt e.path)),
                  trimPre (goJoin2 (goJoin2 root (goDir (trimPre e.path dir)))
                    (goBase (trimSuf e.path (goExt e.path) ++ "." ++ digestHex c
                      ++ goExt e.path))) root⟩,
                 st.mkdirs, st.copies⟩) := by
  refine ⟨?_, ?_, ?_, ?_, ?_, ?_, ?_⟩
  · intro env root dir st e er hw
    simp [collectOne, hw]
  · intro env root dir st e er hw hd hr
    simp [collectOne, hashFilename, hw, hd, hr]
  · intro env root dir st e c er hw hd hr hs hm
    simp [collectOne, hashFilename, hw, hd, hr, hs, hm]
  · intro env root dir st e c er hw hd hr hs hm hc
    simp [collectOne, hashFilename, hw, hd, hr, hs, hm, hc]
  · intro env root dir st st2 pre post e er hpre herr
    induction pre generalizing st with
    | nil =>
      simp [collectWalk] at hpre
      subst hpre
      simp [collectWalk, herr]
    | cons p ps ih =>
      rw [List.cons_append]
      simp only [collectWalk] at hpre ⊢
      cases hp : collectOne env root dir st p with
      | error er2 =>
        rw [hp] at hpre
        simp at hpre
      | ok st3 =>
        rw [hp] at hpre
        exact ih st3 hpre
  · intro env root st st2 pre post d entries er hpre herr
    induction pre generalizing st with
    | nil =>
      simp [collectFiles] at hpre
      subst hpre
      simp [collectFiles, herr]
    | cons p ps ih =>
      rcases p with ⟨pd, pe⟩
      rw [List.cons_append]
      simp only [collectFiles] at hpre ⊢
      cases hp : collectWalk env root pd st pe with
      | error er2 =>
        rw [hp] at hpre
        simp at hpre
      | ok st3 =>
        rw [hp] at hpre
        exact ih st3 hpre
  · intro env root dir st e c e2 hw hd hr hs
    simp [collectOne, hashFilename, hw, hd, hr, hs]

theorem collect_error_propagation_witness :
    collectFiles envFoundW "/out/" ⟨[], [], []⟩
      [("/ok/", []), ("/in/", [⟨"/in/b", false, some ⟨5⟩⟩]), ("/z/", [])]
      = .error ⟨5⟩ := by
  have h1 : collectOne envFoundW "/out/" "/in/" ⟨[], [], []⟩ ⟨"/in/b", false, some ⟨5⟩⟩
      = .error ⟨5⟩ :=
    collect_error_propagation.1 envFoundW "/out/" "/in/" ⟨[], [], []⟩
      ⟨"/in/b", false, some ⟨5⟩⟩ ⟨5⟩ rfl
  have h5 : collectWalk envFoundW "/out/" "/in/" ⟨[], [], []⟩
      ([] ++ ⟨"/in/b", false, some ⟨5⟩⟩ :: []) = .error ⟨5⟩ :=
    collect_error_propagation.2.2.2.2.1 envFoundW "/out/" "/in/" ⟨[], [], []⟩
      ⟨[], [], []⟩ [] [] ⟨"/in/b", false, some ⟨5⟩⟩ ⟨5⟩ rfl h1
  exact collect_error_propagation.2.2.2.2.2.1 envFoundW "/out/" ⟨[], [], []⟩
    ⟨[], [], []⟩ [("/ok/", [])] [("/z/", [])] "/in/" [⟨"/in/b", false, some ⟨5⟩⟩]
    ⟨5⟩ rfl h5

/-! ### C6: broken reference tolerance -/

/-- A matched reference whose resolved candidate path equals no tracked
file's original path is returned unchanged with the changed flag
unset (this also covers references skipped by `ignoreRegex`). -/
theorem rewriteMatch_unresolved (fm : List StaticFile) (cssPath s url : String)
    (h : ∀ tf ∈ fm, tf.Path ≠ goJoin2 (goDir cssPath) url) :
    rewriteMatch fm cssPath s url = (s, false) := by
  unfold rewriteMatch
  by_cases hi : ignoreMatches url
  · simp [hi]
  · have hf : fm.find? (fun tf => tf.Path = goJoin2 (goDir cssPath) url) = none := by
      rw [List.find?_eq_none]
      intro tf htf
      simp [h tf htf]
    simp [hi, hf]

/-- The rewrite pass leaves the whole content unchanged (flag unset)
when every matched reference is left unchanged by `rewriteMatch`. -/
theorem processSegs_unchanged (fm : List StaticFile) (cssPath : String)
    (segs : List Seg)
    (h : ∀ s url, Seg.ref s url ∈ segs → rewriteMatch fm cssPath s url = (s, false)) :
    processSegs fm cssPath segs = (renderSegs segs, false) := by
  induction segs with
  | nil => rfl
  | cons hd tl ih =>
    have htl : ∀ s url, Seg.ref s url ∈ tl → rewriteMatch fm cssPath s url = (s, false) :=
      fun s url hmem => h s url (List.mem_cons_of_mem hd hmem)
    cases hd with
    | lit t => simp [processSegs, renderSegs, ih htl]
    | ref s url =>
      have hs := h s url (List.mem_cons_self _ _)
      simp [processSegs, renderSegs, ih htl, hs]

/-- C6: for a CSS file whose original content reads fine, if every
matched reference resolves to a candidate path equal to no tracked
file's original path, the content is left unchanged, nothing is written
to the storage copy, and the rule returns no error. -/
theorem postProcessCSS_broken_ref_tolerance (env : CssEnv) (fm : List StaticFile)
    (file : StaticFile) (segs : List Seg)
    (hcss : goExt file.Path = ".css") (hread : env.readErr = none)
    (hunres : ∀ s url, Seg.ref s url ∈ segs →
        ∀ tf ∈ fm, tf.Path ≠ goJoin2 (goDir file.Path) url) :
    processSegs fm file.Path segs = (renderSegs segs, false)
    ∧ PostProcessCSS env fm file segs = .ok none := by
  have hp : processSegs fm file.Path segs = (renderSegs segs, false) :=
    processSegs_unchanged fm file.Path segs
      (fun s url hmem => rewriteMatch_unresolved fm file.Path s url (hunres s url hmem))
  refine ⟨hp, ?_⟩
  simp [PostProcessCSS, hcss, hread, hp]

theorem postProcessCSS_broken_ref_tolerance_witness :
    processSegs [⟨"/in/img/x.png", "img/x.png", "/out/img/x.h.png", "img/x.h.png"⟩]
        "/in/css/s.css" [Seg.lit "body ", Seg.ref "url(missing.png)" "missing.png"]
      = (renderSegs [Seg.lit "body ", Seg.ref "url(missing.png)" "missing.png"], false)
    ∧ PostProcessCSS ⟨none, none⟩
        [⟨"/in/img/x.png", "img/x.png", "/out/img/x.h.png", "img/x.h.png"⟩]
        ⟨"/in/css/s.css", "css/s.css", "/out/css/s.h.css", "css/s.h.css"⟩
        [Seg.lit "body ", Seg.ref "url(missing.png)" "missing.png"]
      = .ok none :=
  postProcessCSS_broken_ref_tolerance ⟨none, none⟩
    [⟨"/in/img/x.png", "img/x.png", "/out/img/x.h.png", "img/x.h.png"⟩]
    ⟨"/in/css/s.css", "css/s.css", "/out/css/s.h.css", "css/s.h.css"⟩
    [Seg.lit "body ", Seg.ref "url(missing.png)" "missing.png"]
    rfl rfl
    (by
      intro s url hmem tf htf
      simp only [List.mem_cons, List.mem_singleton] at hmem
      rcases hmem with h1 | h2
      · exact absurd h1 (by simp)
      · rcases h2 with h2 | h2
        · cases h2
          simp only [List.mem_singleton] at htf
          subst htf
          decide
        · exact absurd h2 (List.not_mem_nil _))

/-! ### C1: the rewrite replaces the first occurrence of the filename,
which is not always the filename segment -/

/-- C1 fails on the code: `strings.Replace(s, urlFileName, hashedName, 1)`
replaces the FIRST occurrence of the reference's base filename in the
matched text. For the stylesheet `/in/s.css` containing `url(a/a)` with
the tracked file `/in/a/a` renamed to `a.beef`, the directory segment
(the first `a`) is replaced instead of the final filename segment: the
output written is `url(a.beef/a)`, a reference to a nonexistent path,
where the intended rewrite of only the filename segment would give
`url(a/a.beef)`. -/
theorem postProcessCSS_rewrites_directory_segment :
    PostProcessCSS ⟨none, none⟩ [⟨"/in/a/a", "a/a", "/out/a/a.beef", "a/a.beef"⟩]
      ⟨"/in/s.css", "s.css", "/out/s.hash.css", "s.hash.css"⟩
      [Seg.ref "url(a/a)" "a/a"] = .ok (some "url(a.beef/a)") := rfl

/-! ### C5: scheme-like references are skipped; absolute paths are not -/

/-- C5 fails on the code as stated: a path-absolute reference (leading
slash, hence "otherwise absolute" but without a `word:` scheme) is NOT
exempted from rewriting. Here `url(/a/b.png)` inside
`/in/css/style.css` resolves (via `filepath.Join`) to
`/in/css/a/b.png`, which is tracked, so the reference is rewritten —
not left textually unchanged. -/
theorem postProcessCSS_absolute_ref_rewritten :
    PostProcessCSS ⟨none, none⟩
      [⟨"/in/css/a/b.png", "css/a/b.png", "/out/css/a/b.cafe.png", "css/a/b.cafe.png"⟩]
      ⟨"/in/css/style.css", "css/style.css", "/out/css/style.dd.css", "css/style.dd.css"⟩
      [Seg.ref "url(/a/b.png)" "/a/b.png"] = .ok (some "url(/a/b.cafe.png)") := rfl

/-- C5 as amended: a matched reference whose captured string starts
with one or more word characters followed by a colon (a URI-scheme-like
reference, e.g. `data:` or `http:`) is left textually unchanged with
the changed flag unset — no resolution or replacement is attempted.
References that are absolute in any other sense (e.g. a leading slash)
are not exempted. -/
theorem rewriteMatch_scheme_skipped (fm : List StaticFile) (cssPath s url : String)
    (h : ignoreMatches url = true) :
    rewriteMatch fm cssPath s url = (s, false) := by
  simp [rewriteMatch, h]

theorem rewriteMatch_scheme_skipped_witness :
    rewriteMatch [⟨"/in/css/a/b.png", "css/a/b.png", "/out/css/a/b.cafe.png", "css/a/b.cafe.png"⟩]
      "/in/css/style.css" "url(data:image/png;base64,AA)" "data:image/png;base64,AA"
      = ("url(data:image/png;base64,AA)", false) :=
  rewriteMatch_scheme_skipped
    [⟨"/in/css/a/b.png", "css/a/b.png", "/out/css/a/b.cafe.png", "css/a/b.cafe.png"⟩]
    "/in/css/style.css" "url(data:image/png;base64,AA)" "data:image/png;base64,AA"
    (by decide)

/-! ### C8: root consultation order of Open -/

/-- Each iteration of the input-dir loop overwrites the loop state, so
the state coming into a non-empty list is irrelevant. -/
theorem openLoopAux_acc_irrel (env : OpenEnv) (path d : String)
    (rest : List String) (acc acc2 : Option GoFile × Option OpenErr) :
    openLoopAux env path acc (d :: rest) = openLoopAux env path acc2 (d :: rest) := rfl

/-- A prefix of roots that all report not-exist is skipped by the loop. -/
theorem openLoopAux_skip (env : OpenEnv) (path : String) (ds1 : List String)
    (h : ∀ d2 ∈ ds1, env.openAt d2 path = .error OpenErr.notExist)
    (acc : Option GoFile × Option OpenErr) (d : String) (rest : List String) :
    openLoopAux env path acc (ds1 ++ d :: rest)
      = openLoopAux env path (none, some OpenErr.notExist) (d :: rest) := by
  induction ds1 generalizing acc with
  | nil => exact openLoopAux_acc_irrel env path d rest acc _
  | cons p ps ih =>
    have hp : env.openAt p path = .error OpenErr.notExist :=
      h p (List.mem_cons_self _ _)
    have hps : ∀ d2 ∈ ps, env.openAt d2 path = .error OpenErr.notExist :=
      fun d2 hd2 => h d2 (List.mem_cons_of_mem p hd2)
    rw [List.cons_append]
    simp only [openLoopAux, hp]
    exact ih hps (none, some OpenErr.notExist)

/-- Roots that all report not-exist leave the loop with a nil file and
the not-exist error. -/
theorem openLoopAux_all_notExist (env : OpenEnv) (path : String) :
    ∀ ds : List String, ds ≠ [] →
    (∀ d2 ∈ ds, env.openAt d2 path = .error OpenErr.notExist) →
    ∀ acc, openLoopAux env path acc ds = (none, some OpenErr.notExist) := by
  intro ds
  induction ds with
  | nil => intro hne; exact absurd rfl hne
  | cons p ps ih =>
    intro _ h acc
    have hp : env.openAt p path = .error OpenErr.notExist :=
      h p (List.mem_cons_self _ _)
    have hps : ∀ d2 ∈ ps, env.openAt d2 path = .error OpenErr.notExist :=
      fun d2 hd2 => h d2 (List.mem_cons_of_mem p hd2)
    simp only [openLoopAux, hp, if_pos rfl]
    cases ps with
    | nil => rfl
    | cons q qs => exact ih (by simp) hps (none, some OpenErr.notExist)

/-- C8: in passthrough mode (`Enabled` false) the input roots are tried
in order — a prefix of not-found roots is skipped; the first successful
open is returned; a non-not-found error aborts with that error no
matter what later roots would do; if every root reports not-found that
not-found error is propagated. With `Enabled` true the result depends
only on opening under the output root. -/
theorem storage_open_root_consultation :
    (∀ (env : OpenEnv) (s : Storage) (path : String) (ds1 ds2 : List String)
        (d : String) (f : GoFile),
        s.Enabled = false → s.OutputDirList = true →
        s.inputDirs = ds1 ++ d :: ds2 →
        (∀ d2 ∈ ds1, env.openAt d2 path = .error OpenErr.notExist) →
        env.openAt d path = .ok f →
        Storage.Open env s path = .ok f)
    ∧ (∀ (env : OpenEnv) (s : Storage) (path : String) (ds1 ds2 : List String)
        (d : String) (c : Nat),
        s.Enabled = false → s.inputDirs = ds1 ++ d :: ds2 →
        (∀ d2 ∈ ds1, env.openAt d2 path = .error OpenErr.notExist) →
        env.openAt d path = .error (OpenErr.other c) →
        Storage.Open env s path = .fail (OpenErr.other c))
    ∧ (∀ (env : OpenEnv) (s : Storage) (path : String),
        s.Enabled = false → s.inputDirs ≠ [] →
        (∀ d2 ∈ s.inputDirs, env.openAt d2 path = .error OpenErr.notExist) →
        Storage.Open env s path = .fail OpenErr.notExist)
    ∧ (∀ (env env2 : OpenEnv) (s : Storage) (path : String),
        s.Enabled = true →
        env.openAt s.OutputDir path = env2.openAt s.OutputDir path →
        Storage.Open env s path = Storage.Open env2 s path) := by
  refine ⟨?_, ?_, ?_, ?_⟩
  · intro env s path ds1 ds2 d f hen hl hdirs hpre hd
    simp only [Storage.Open, openLoop, hen, if_pos rfl, hdirs]
    rw [openLoopAux_skip env path ds1 hpre _ d ds2]
    simp [openLoopAux, hd, hl]
  · intro env s path ds1 ds2 d c hen hdirs hpre hd
    simp only [Storage.Open, openLoop, hen, if_pos rfl, hdirs]
    rw [openLoopAux_skip env path ds1 hpre _ d ds2]
    simp [openLoopAux, hd]
  · intro env s path hen hne hall
    simp only [Storage.Open, openLoop, hen, if_pos rfl]
    rw [openLoopAux_all_notExist env path s.inputDirs hne hall]
    simp
  · intro env env2 s path hen heq
    simp only [Storage.Open, hen, heq]
    simp

/-- Open oracle for witnesses: the file exists under root `/r2/`, root
`/bad/` fails with a permission-style error, every other root reports
not-exist. -/
def envOpenW : OpenEnv :=
  ⟨fun d p =>
    if d = "/r2/" ∧ p = "/x.css" then .ok ⟨false, none, 7⟩
    else if d = "/bad/" then .error (OpenErr.other 3)
    else .error OpenErr.notExist⟩

/-- Like `envOpenW` but differing on every root other than `/r2/`. -/
def envOpenW2 : OpenEnv :=
  ⟨fun d p =>
    if d = "/r2/" ∧ p = "/x.css" then .ok ⟨false, none, 7⟩
    else .error (OpenErr.other 9)⟩

theorem storage_open_root_consultation_witness :
    Storage.Open envOpenW ⟨"/out/", ["/r1/", "/r2/", "/r3/"], true, false⟩ "/x.css"
      = .ok ⟨false, none, 7⟩
    ∧ Storage.Open envOpenW ⟨"/out/", ["/r1/", "/bad/", "/r3/"], true, false⟩ "/x.css"
      = .fail (OpenErr.other 3)
    ∧ Storage.Open envOpenW ⟨"/out/", ["/r1/", "/r3/"], true, false⟩ "/x.css"
      = .fail OpenErr.notExist
    ∧ Storage.Open envOpenW ⟨"/r2/", ["/zz/"], true, true⟩ "/x.css"
      = Storage.Open envOpenW2 ⟨"/r2/", ["/zz/"], true, true⟩ "/x.css" :=
  ⟨storage_open_root_consultation.1 envOpenW
      ⟨"/out/", ["/r1/", "/r2/", "/r3/"], true, false⟩ "/x.css" ["/r1/"] ["/r3/"]
      "/r2/" ⟨false, none, 7⟩ rfl rfl rfl
      (by intro d2 hd; fin_cases hd; rfl) rfl,
   storage_open_root_consultation.2.1 envOpenW
      ⟨"/out/", ["/r1/", "/bad/", "/r3/"], true, false⟩ "/x.css" ["/r1/"] ["/r3/"]
      "/bad/" 3 rfl rfl
      (by intro d2 hd; fin_cases hd; rfl) rfl,
   storage_open_root_consultation.2.2.1 envOpenW
      ⟨"/out/", ["/r1/", "/r3/"], true, false⟩ "/x.css" rfl (by simp)
      (by intro d2 hd; fin_cases hd <;> rfl),
   storage_open_root_consultation.2.2.2 envOpenW envOpenW2
      ⟨"/r2/", ["/zz/"], true, true⟩ "/x.css" rfl rfl⟩

/-! ### C10: Open can return a nil file with a nil error -/

/-- C10 names a real hole in the code: in passthrough mode with zero
configured input roots, the loop never assigns the (file, error) pair,
so `Open` falls through every check and returns a nil file together
with a nil error (with directory listing enabled, the default set by
`NewStorage`), for every oracle and every request path — the claimed
safety property "error nil implies file non-nil" does not hold. -/
theorem storage_open_nil_nil (env : OpenEnv) (path : String) :
    Storage.Open env ⟨"/out/", [], true, false⟩ path = .okNil := rfl
